import Mathlib

/-!
Verification of the core scheduler in `scripts/code.py`: a SQLite-backed DAG
job scheduler with leases, heartbeats and content-addressed dedupe.

The definitions below are a shallow embedding of the Python functions.  SQL
tables become lists of records kept in insertion order, `ORDER BY` becomes a
stable sort of that order, NULL-able columns become `Option`, `time.time()`
values become rationals, and commit / rollback boundaries of functions that
can raise are made explicit.
-/

attribute [local semireducible] Rat.add Rat.mul Rat.inv Rat.sub

namespace Sched

/-- Job status column (`TEXT`); the code only ever writes these four values. -/
inductive Status where
  | queued
  | running
  | done
  | failed
deriving DecidableEq, Repr

/-- One row of the `jobs` table. -/
structure Job where
  id : String
  lane : Int
  payload : String
  status : Status
  holder : Option String
  lease_until : Option ℚ
  created_at : ℚ
  updated_at : ℚ
  error : Option String
  attempts : Nat
  max_attempts : Nat
  dedupe_key : Option String
deriving DecidableEq, Repr

/-- One row of the `events` table. -/
structure Event where
  ts : ℚ
  job_id : Option String
  kind : String
  msg : String
deriving DecidableEq, Repr

/-- The database: `jobs` and `events` keep insertion order; `job_deps` is a
list of `(job_id, dep_id)` pairs with insert-if-absent semantics. -/
structure Store where
  jobs : List Job
  deps : List (String × String)
  events : List Event
deriving DecidableEq, Repr

def LEASE_MS : ℚ := 30000

def MAX_ATTEMPTS : Nat := 3

def VALID_PREFIXES : List String :=
  ["@file:", "@cmd:", "@url:", "@git:", "@gh:", "@doc:"]

/-- Python string slicing `s[:n]` (by characters). -/
def strTake (s : String) (n : Nat) : String := ⟨s.data.take n⟩

/-- `log_event`: append a row to `events`, truncating `msg` to 500 chars. -/
def log_event (s : Store) (now : ℚ) (job_id : Option String) (kind msg : String) : Store :=
  { s with events := s.events ++ [⟨now, job_id, kind, strTake msg 500⟩] }

/-- `validate_payload` succeeds iff the payload starts with a recognized
pointer prefix. -/
def validate_payload (payload : String) : Bool :=
  VALID_PREFIXES.any (fun p => p.data.isPrefixOf payload.data)

/-- `enqueue_job`: validate the payload, `INSERT OR IGNORE` the job row and log
`enqueued`.  A validation failure raises, leaving the store unchanged. -/
def enqueue_job (s : Store) (now : ℚ) (job_id : String) (lane : Int) (payload : String)
    (dedupe_key : Option String) (max_attempts : Nat) : Except String Store :=
  if !validate_payload payload then
    .error ("Payload must start with a valid pointer type. Got: " ++ strTake payload 80)
  else
    let s' :=
      if s.jobs.any (fun j => decide (j.id = job_id)) then s
      else { s with jobs := s.jobs ++ [{
        id := job_id, lane := lane, payload := payload, status := .queued,
        holder := none, lease_until := none, created_at := now, updated_at := now,
        error := none, attempts := 0, max_attempts := max_attempts,
        dedupe_key := dedupe_key }] }
    .ok (log_event s' now (some job_id) "enqueued" (strTake payload 120))

/-- `add_dep`: `INSERT OR IGNORE` a dependency edge. -/
def add_dep (s : Store) (job_id dep_id : String) : Store :=
  if (job_id, dep_id) ∈ s.deps then s
  else { s with deps := s.deps ++ [(job_id, dep_id)] }

/-- A SQL `UPDATE jobs SET ... WHERE id=? AND <cond>`: applies `f` to every row
matching the id and condition; the boolean is the rowcount test (> 0). -/
def condUpdate (s : Store) (job_id : String) (cond : Job → Bool) (f : Job → Job) :
    Store × Bool :=
  ({ s with jobs := s.jobs.map (fun j => if decide (j.id = job_id) && cond j then f j else j) },
   s.jobs.any (fun j => decide (j.id = job_id) && cond j))

/-- `lease_until < now` with SQL NULL semantics (NULL compares false). -/
def leaseExpired (now : ℚ) : Option ℚ → Bool
  | none => false
  | some t => decide (t < now)

/-- Body of the loop in `requeue_stale`, acting on one stale row of the
snapshot: below the attempt cap the job is requeued; at the cap it fails. -/
def requeueStep (now : ℚ) (s : Store) (row : Job) : Store :=
  if row.attempts < row.max_attempts then
    log_event ((condUpdate s row.id (fun _ => true) (fun j =>
      { j with status := .queued, holder := none, lease_until := none,
               updated_at := now })).1) now (some row.id) "requeued" "stale lease"
  else
    log_event ((condUpdate s row.id (fun _ => true) (fun j =>
      { j with status := .failed, error := some "max attempts exceeded",
               updated_at := now })).1) now (some row.id) "failed" "max attempts exceeded"

/-- `requeue_stale`: snapshot all running rows whose lease has expired, then
process each one. -/
def requeue_stale (s : Store) (now : ℚ) : Store :=
  (s.jobs.filter (fun j => decide (j.status = .running) && leaseExpired now j.lease_until)).foldl
    (requeueStep now) s

/-- `pathlib.PurePath.stem`: the file name without its last suffix; a suffix
exists when the last dot sits strictly inside the name (`0 < i < len - 1`). -/
def pathStem (name : String) : String :=
  let cs := name.data
  let dots := (List.range cs.length).filter (fun i => decide (cs.getD i ' ' = '.'))
  match dots.getLast? with
  | some i => if 0 < i ∧ i < cs.length - 1 then ⟨cs.take i⟩ else name
  | none => name

/-- `check_dedupe`: true iff the dedupe key is truthy, the artifact directory
exists (`none` models a missing directory) and some file stem equals the key. -/
def check_dedupe (artifacts : Option (List String)) (dedupe_key : Option String) : Bool :=
  match dedupe_key with
  | none => false
  | some dk =>
    if dk = "" then false
    else
      match artifacts with
      | none => false
      | some files => files.any (fun f => decide (pathStem f = dk))

/-- The `NOT EXISTS` subquery of the ready query: a job is blocked iff some dep
edge from it points to an existing job row that is not done. -/
def depBlocked (s : Store) (j : Job) : Bool :=
  s.deps.any (fun d =>
    decide (d.1 = j.id) &&
      s.jobs.any (fun dj => decide (dj.id = d.2) && !(decide (dj.status = Status.done))))

/-- The optional `AND j.lane = ?` clause. -/
def laneOk (lane : Option Int) (j : Job) : Bool :=
  match lane with
  | none => true
  | some l => decide (j.lane = l)

/-- The `WHERE` clause of the ready query. -/
def readyRow (s : Store) (lane : Option Int) (j : Job) : Bool :=
  decide (j.status = Status.queued) && laneOk lane j && !(depBlocked s j)

/-- `created_at` ordering used by `ORDER BY j.created_at`. -/
def createdLE (a b : Job) : Prop := a.created_at ≤ b.created_at

instance : DecidableRel createdLE :=
  fun a b => inferInstanceAs (Decidable (a.created_at ≤ b.created_at))

instance : IsTotal Job createdLE := ⟨fun a b => le_total a.created_at b.created_at⟩

instance : IsTrans Job createdLE := ⟨fun _ _ _ h h' => le_trans h h'⟩

/-- The ready-selection query of `claim_ready`: filter queued, lane-matching,
unblocked rows; order by `created_at` (a stable sort of the insertion-ordered
table models the SQL `ORDER BY`); `LIMIT batch`. -/
def selectReady (s : Store) (lane : Option Int) (batch : Nat) : List Job :=
  ((s.jobs.filter (readyRow s lane)).insertionSort createdLE).take batch

/-- Body of the claim loop of `claim_ready` for one selected row: either a
dedupe skip straight to done, or a conditional claim to running. -/
def claimStep (artifacts : Option (List String)) (holder : String) (lease_until now : ℚ)
    (acc : Store × List Job) (row : Job) : Store × List Job :=
  if check_dedupe artifacts row.dedupe_key then
    let s' := (condUpdate acc.1 row.id (fun j => decide (j.status = Status.queued)) (fun j =>
      { j with status := Status.done, holder := some holder, updated_at := now })).1
    (log_event s' now (some row.id) "dedupe_skip"
      ("artifact exists for " ++ row.dedupe_key.getD "None"), acc.2)
  else
    let r := condUpdate acc.1 row.id (fun j => decide (j.status = Status.queued)) (fun j =>
      { j with status := Status.running, holder := some holder,
               lease_until := some lease_until, attempts := j.attempts + 1,
               updated_at := now })
    if r.2 then
      (log_event r.1 now (some row.id) "claimed" ("holder=" ++ holder), acc.2 ++ [row])
    else (r.1, acc.2)

/-- `claim_ready`: sweep stale leases, select up to `batch` ready rows, then
process each row with `claimStep`.  Returns the new store and the claimed
rows (as selected). -/
def claim_ready (s : Store) (artifacts : Option (List String)) (holder : String)
    (lane : Option Int) (batch : Nat) (lease_ms now : ℚ) : Store × List Job :=
  let s₁ := requeue_stale s now
  (selectReady s₁ lane batch).foldl
    (claimStep artifacts holder (now + lease_ms / 1000) now) (s₁, [])

/-- Python truthiness of the optional `holder` argument: `None` and the empty
string are both falsy. -/
def pyTruthy : Option String → Bool
  | none => false
  | some h => !(decide (h = ""))

/-- `mark_done`: a conditional update guarded on `status='running'` and — only
when a truthy holder is given — on the stored holder; then log `done`. -/
def mark_done (s : Store) (now : ℚ) (job_id : String) (holder : Option String) : Store :=
  let s' :=
    if pyTruthy holder then
      (condUpdate s job_id
        (fun j => decide (j.status = Status.running) && decide (j.holder = holder))
        (fun j => { j with status := Status.done, updated_at := now })).1
    else
      (condUpdate s job_id (fun j => decide (j.status = Status.running))
        (fun j => { j with status := Status.done, updated_at := now })).1
  log_event s' now (some job_id) "done" ""

/-- `mark_failed`: same guard as `mark_done`; stores the error truncated to
1000 chars and logs `failed` with the error truncated to 200 chars. -/
def mark_failed (s : Store) (now : ℚ) (job_id : String) (error : String)
    (holder : Option String) : Store :=
  let s' :=
    if pyTruthy holder then
      (condUpdate s job_id
        (fun j => decide (j.status = Status.running) && decide (j.holder = holder))
        (fun j => { j with status := Status.failed, error := some (strTake error 1000),
                           updated_at := now })).1
    else
      (condUpdate s job_id (fun j => decide (j.status = Status.running))
        (fun j => { j with status := Status.failed, error := some (strTake error 1000),
                           updated_at := now })).1
  log_event s' now (some job_id) "failed" (strTake error 200)

/-- `heartbeat`: extend the lease iff the job is running and held by the given
holder; the boolean is the rowcount test. -/
def heartbeat (s : Store) (job_id holder : String) (lease_ms now : ℚ) : Store × Bool :=
  condUpdate s job_id
    (fun j => decide (j.status = Status.running) && decide (j.holder = some holder))
    (fun j => { j with lease_until := some (now + lease_ms / 1000), updated_at := now })

/-- One parsed plan step, as produced by `parse_plan`. -/
structure Step where
  id : String
  global_id : String
  lane : Int
  payload : String
  deps : List String
  dedupe_key : Option String
deriving DecidableEq, Repr

/-- `expand_plan`, database phase, on the parsed step list.  Returns the error
raised (if any) together with the store as committed on disk afterwards: jobs
are enqueued and committed first, then dep edges are inserted and committed;
an error between the two commits rolls back only the uncommitted edges. -/
def expand_plan (s : Store) (now : ℚ) (steps : List Step) : Option String × Store :=
  if steps.isEmpty then (some "No steps found in plan", s)
  else
    let idMap := (steps.map (fun st => (st.id, st.global_id))).reverse
    match steps.foldlM (fun acc st =>
        enqueue_job acc now st.global_id st.lane st.payload st.dedupe_key MAX_ATTEMPTS) s with
    | .error e => (some e, s)
    | .ok committed =>
      match steps.foldlM (fun acc st =>
          st.deps.foldlM (fun acc2 dep_id =>
            match idMap.lookup dep_id with
            | none => Except.error ("Step " ++ st.id ++ " depends on unknown step " ++ dep_id)
            | some gid => Except.ok (add_dep acc2 st.global_id gid)) acc) committed with
      | .error e => (some e, committed)
      | .ok final => (none, final)

def CMD_ALLOWLIST : List String := [
  "echo ", "cat ", "test ", "ls ", "mkdir ", "cp ", "mv ",
  "go test", "go build", "go vet", "go fmt",
  "python", "pip ", "npm ", "npx ", "node ",
  "make", "cargo ", "rustc ",
  "git ", "diff ", "patch ",
  "swift ", "xcodebuild",
  "./code ", "./scripts/code",
  "true", "false",
  "touch ", "rm ",
  "head ", "tail ", "wc ", "sort ", "uniq ",
  "grep ", "rg ", "fd ",
  "sha1sum", "sha256sum", "md5sum",
  "sleep "]

def CMD_BLOCKLIST : List String := [
  "rm -rf /", "rm -rf ~", "sudo ", "curl ", "wget ",
  "eval ", "> /dev/", "mkfs", "dd if=", ":()\x7b "]

/-- Characters stripped by Python `str.strip()` (the ASCII whitespace set). -/
def isPySpace (c : Char) : Bool :=
  decide (c = ' ') || decide (c = '\t') || decide (c = '\n') || decide (c = '\r') ||
    decide (c = '\x0b') || decide (c = '\x0c')

def stripChars (l : List Char) : List Char :=
  ((l.dropWhile isPySpace).reverse.dropWhile isPySpace).reverse

/-- Python `str.strip()` with no arguments. -/
def pyStrip (s : String) : String := ⟨stripChars s.data⟩

/-- Python substring test `needle in hay`. -/
def isSubstrOf (needle : List Char) : List Char → Bool
  | [] => needle.isEmpty
  | c :: t => needle.isPrefixOf (c :: t) || isSubstrOf needle t

/-- `is_cmd_safe`: blocklist substring check first, then allowlist prefix or
exact stripped-entry match, then the `./` escape hatch. -/
def is_cmd_safe (cmd : String) : Bool :=
  let cs := stripChars cmd.data
  if CMD_BLOCKLIST.any (fun b => isSubstrOf b.data cs) then false
  else if CMD_ALLOWLIST.any (fun p =>
      p.data.isPrefixOf cs || decide (cs = stripChars p.data)) then true
  else if ['.', '/'].isPrefixOf cs then true
  else false

/-- First row of the `jobs` table with the given id (unique under the primary
key invariant). -/
def getJob (s : Store) (job_id : String) : Option Job :=
  s.jobs.find? (fun j => decide (j.id = job_id))

/-- The PRIMARY KEY invariant of the `jobs` table. -/
def NodupIds (s : Store) : Prop := (s.jobs.map (fun j => j.id)).Nodup

instance : DecidablePred NodupIds := fun s =>
  show Decidable ((s.jobs.map (fun j => j.id)).Nodup) from inferInstance

/-- The net effect of the sweep on one stale row. -/
def requeueTarget (now : ℚ) (j : Job) : Job :=
  if j.attempts < j.max_attempts then
    { j with status := .queued, holder := none, lease_until := none, updated_at := now }
  else
    { j with status := .failed, error := some "max attempts exceeded", updated_at := now }

/-- A property holding of every row of the jobs table. -/
def JobsProp (P : Job → Prop) (s : Store) : Prop := ∀ j ∈ s.jobs, P j

/-- A running job always carries a holder and a lease. -/
def RunningImp (j : Job) : Prop :=
  j.status = Status.running → j.holder ≠ none ∧ j.lease_until ≠ none

instance : DecidablePred RunningImp := fun j =>
  inferInstanceAs (Decidable (j.status = Status.running → j.holder ≠ none ∧ j.lease_until ≠ none))

/-- The empty database. -/
def emptyStore : Store := ⟨[], [], []⟩

/-- Run `enqueue_job` treating a raised validation error as a no-op (used only
to build concrete reachable stores for counterexamples and witnesses). -/
def enqueueD (s : Store) (now : ℚ) (job_id : String) (lane : Int) (payload : String)
    (dk : Option String) (ma : Nat) : Store :=
  match enqueue_job s now job_id lane payload dk ma with
  | Except.ok s' => s'
  | Except.error _ => s

/-- The store reached by: enqueue job `j`, claim it as worker `w`, mark it
done by `w`.  Used only for the C2 counterexample. -/
def c2Store : Store :=
  mark_done (claim_ready (enqueueD emptyStore 1 "j" 0 "@cmd:ls" none 3)
    none "w" none 1 30000 2).1 3 "j" (some "w")

/-- A store with one well-formed running job, for the C2 witness. -/
def c2WitnessStore : Store :=
  ⟨[{ id := "j", lane := 0, payload := "@cmd:ls", status := Status.running,
      holder := some "w", lease_until := some 10, created_at := 1, updated_at := 1,
      error := none, attempts := 1, max_attempts := 3, dedupe_key := none }], [], []⟩


/-- A store with one running job held by `w`, for the C7 witness. -/
def c7Store : Store :=
  ⟨[{ id := "j", lane := 0, payload := "@cmd:ls", status := Status.running,
      holder := some "w", lease_until := some 10, created_at := 1, updated_at := 1,
      error := none, attempts := 1, max_attempts := 3, dedupe_key := none }], [], []⟩

/-- The store reached by: enqueue job `j`, then claim it as worker `w1`.
Used only for the C8 counterexample. -/
def c8Store : Store :=
  (claim_ready (enqueueD emptyStore 1 "j" 0 "@cmd:ls" none 3) none "w1" none 1 30000 2).1

/-- A running job held by `x`, for the C8 witness. -/
def c8WJob : Job :=
  { id := "j", lane := 0, payload := "@cmd:ls", status := Status.running,
    holder := some "x", lease_until := some 10, created_at := 1, updated_at := 1,
    error := none, attempts := 1, max_attempts := 3, dedupe_key := none }

/-- A store with just `c8WJob`, for the C8 witness. -/
def c8WStore : Store := ⟨[c8WJob], [], []⟩


/-- The store reached by enqueueing `b` then `a` with the SAME `created_at`.
Used only for claim C3. -/
def c3Store : Store :=
  enqueueD (enqueueD emptyStore 5 "b" 0 "@cmd:ls" none 3) 5 "a" 0 "@cmd:ls" none 3

/-- The store with job `a` (dedupe key `k`, older) and job `b` (no key,
newer), both ready.  Used only for claim C10. -/
def c10Store : Store :=
  enqueueD (enqueueD emptyStore 1 "a" 0 "@cmd:ls" (some "k") 3) 2 "b" 0 "@cmd:ls" none 3

/-- An artifact directory holding the single file `k.txt`. -/
def c10Art : Option (List String) := some ["k.txt"]


/-- A one-step plan whose step depends on an unknown step id `zzz`.  Used
only for claim C1. -/
def c1Step : Step :=
  { id := "a", global_id := "p::a", lane := 0, payload := "@cmd:ls",
    deps := ["zzz"], dedupe_key := none }


/-- The per-job attempts invariant: at least one attempt allowed, the cap is
respected, and a queued job still has an attempt left (so the next claim
cannot overshoot the cap). -/
def AttemptsOK (j : Job) : Prop :=
  1 ≤ j.max_attempts ∧ j.attempts ≤ j.max_attempts ∧
    (j.status = Status.queued → j.attempts < j.max_attempts)

instance : DecidablePred AttemptsOK := fun j =>
  show Decidable (1 ≤ j.max_attempts ∧ j.attempts ≤ j.max_attempts ∧
    (j.status = Status.queued → j.attempts < j.max_attempts)) from inferInstance

/-- The store-wide attempts invariant, together with the primary key. -/
def AttemptsInv (s : Store) : Prop := NodupIds s ∧ ∀ j ∈ s.jobs, AttemptsOK j

instance : DecidablePred AttemptsInv := fun s =>
  show Decidable (NodupIds s ∧ ∀ j ∈ s.jobs, AttemptsOK j) from inferInstance

/-- The store reached by enqueueing a job with `max_attempts = 0` (possible
through the HTTP `/enqueue` body) and claiming it.  Used only for the C5
counterexample. -/
def c5Store : Store :=
  (claim_ready (enqueueD emptyStore 1 "j" 0 "@cmd:ls" none 0) none "w" none 1 30000 2).1

/-- A store with one queued job under the default cap, for the C5 witness. -/
def c5WStore : Store :=
  ⟨[{ id := "j", lane := 0, payload := "@cmd:ls", status := Status.queued,
      holder := none, lease_until := none, created_at := 1, updated_at := 1,
      error := none, attempts := 0, max_attempts := 3, dedupe_key := none }], [], []⟩


/-- The store reached by: enqueue `j` with dedupe key `k`; claim it while no
artifact exists (attempts becomes 1); after the lease expires, claim again
with the artifact `k.txt` present, so the sweep requeues it and the dedupe
check skips it to done.  Used only for the C6 counterexample. -/
def c6Store : Store :=
  (claim_ready (claim_ready (enqueueD emptyStore 1 "j" 0 "@cmd:ls" (some "k") 3)
    (some []) "w1" none 1 30000 2).1 (some ["k.txt"]) "w2" none 1 30000 100).1

/-- A queued job with dedupe key `k`, for the C6 witness. -/
def c6WJob : Job :=
  { id := "j", lane := 0, payload := "@cmd:ls", status := Status.queued,
    holder := none, lease_until := none, created_at := 1, updated_at := 1,
    error := none, attempts := 0, max_attempts := 3, dedupe_key := some "k" }

/-- A store with just `c6WJob`, for the C6 witness. -/
def c6WStore : Store := ⟨[c6WJob], [], []⟩

/-! ### Basic lemmas about the store primitives -/

theorem getJob_log_event (s : Store) (now : ℚ) (i : Option String) (k m x : String) :
    getJob (log_event s now i k m) x = getJob s x := rfl

theorem log_event_jobs (s : Store) (now : ℚ) (i : Option String) (k m : String) :
    (log_event s now i k m).jobs = s.jobs := rfl

theorem mem_events_log_event {s : Store} {e : Event} (h : e ∈ s.events)
    (now : ℚ) (i : Option String) (k m : String) : e ∈ (log_event s now i k m).events := by
  simp only [log_event, List.mem_append]
  exact Or.inl h

theorem self_mem_events_log_event (s : Store) (now : ℚ) (i : Option String) (k m : String) :
    (⟨now, i, k, strTake m 500⟩ : Event) ∈ (log_event s now i k m).events := by
  simp [log_event]

theorem find?_id_map (g : Job → Job) (hg : ∀ j, (g j).id = j.id) (x : String) :
    ∀ l : List Job, (l.map g).find? (fun j => decide (j.id = x)) =
      (l.find? (fun j => decide (j.id = x))).map g
  | [] => rfl
  | a :: t => by
    by_cases h : a.id = x
    · rw [List.map_cons, List.find?_cons_of_pos _ (by simp [hg, h]),
        List.find?_cons_of_pos _ (by simp [h])]
      rfl
    · rw [List.map_cons, List.find?_cons_of_neg _ (by simp [hg, h]),
        List.find?_cons_of_neg _ (by simp [h])]
      exact find?_id_map g hg x t

theorem getJob_condUpdate (s : Store) (x : String) (cond : Job → Bool) (f : Job → Job)
    (hf : ∀ j, (f j).id = j.id) :
    getJob (condUpdate s x cond f).1 x =
      (getJob s x).map (fun j => if cond j then f j else j) := by
  have hg : ∀ j : Job, (if decide (j.id = x) && cond j then f j else j).id = j.id := by
    intro j
    split
    · exact hf j
    · rfl
  unfold getJob condUpdate
  rw [find?_id_map _ hg]
  cases hfind : s.jobs.find? (fun j => decide (j.id = x)) with
  | none => rfl
  | some j =>
    have hp := List.find?_some hfind
    have hid : j.id = x := by simpa using hp
    simp [hid]

theorem getJob_condUpdate_ne (s : Store) {x y : String} (hxy : x ≠ y)
    (cond : Job → Bool) (f : Job → Job) (hf : ∀ j, (f j).id = j.id) :
    getJob (condUpdate s y cond f).1 x = getJob s x := by
  have hg : ∀ j : Job, (if decide (j.id = y) && cond j then f j else j).id = j.id := by
    intro j
    split
    · exact hf j
    · rfl
  unfold getJob condUpdate
  rw [find?_id_map _ hg]
  cases hfind : s.jobs.find? (fun j => decide (j.id = x)) with
  | none => rfl
  | some j =>
    have hp := List.find?_some hfind
    have hid : j.id = x := by simpa using hp
    have hne : j.id ≠ y := by rw [hid]; exact hxy
    simp [hne]

theorem condUpdate_events (s : Store) (x : String) (cond : Job → Bool) (f : Job → Job) :
    (condUpdate s x cond f).1.events = s.events := rfl

theorem condUpdate_deps (s : Store) (x : String) (cond : Job → Bool) (f : Job → Job) :
    (condUpdate s x cond f).1.deps = s.deps := rfl

theorem condUpdate_snd (s : Store) (x : String) (cond : Job → Bool) (f : Job → Job) :
    (condUpdate s x cond f).2 = true ↔ ∃ j ∈ s.jobs, j.id = x ∧ cond j = true := by
  simp [condUpdate, and_assoc]

theorem find?_id_of_mem_nodup :
    ∀ {l : List Job}, (l.map (fun j => j.id)).Nodup → ∀ {j : Job}, j ∈ l →
      l.find? (fun k => decide (k.id = j.id)) = some j := by
  intro l
  induction l with
  | nil => intro _ j hj; cases hj
  | cons a t ih =>
    intro hn j hj
    have hn' := hn
    rw [List.map_cons, List.nodup_cons] at hn'
    rcases List.mem_cons.mp hj with rfl | hmem
    · exact List.find?_cons_of_pos _ (by simp)
    · have ha : ¬ (a.id = j.id) := by
        intro h
        exact hn'.1 (h ▸ List.mem_map_of_mem (fun j => j.id) hmem)
      rw [List.find?_cons_of_neg _ (by simp [ha])]
      exact ih hn'.2 hmem

theorem getJob_of_mem_nodup {s : Store} (hn : NodupIds s) {j : Job} (hj : j ∈ s.jobs) :
    getJob s j.id = some j :=
  find?_id_of_mem_nodup hn hj

/-! ### Stale-lease sweep lemmas -/

theorem getJob_requeueStep_ne (now : ℚ) (s : Store) (row : Job) {x : String}
    (hx : x ≠ row.id) : getJob (requeueStep now s row) x = getJob s x := by
  unfold requeueStep
  split
  · rw [getJob_log_event]
    exact getJob_condUpdate_ne s hx _ _ (fun _ => rfl)
  · rw [getJob_log_event]
    exact getJob_condUpdate_ne s hx _ _ (fun _ => rfl)

theorem getJob_requeueStep_self (now : ℚ) (s : Store) {row j : Job}
    (hj : getJob s row.id = some j) :
    getJob (requeueStep now s row) row.id =
      some (if row.attempts < row.max_attempts then
        { j with status := .queued, holder := none, lease_until := none, updated_at := now }
      else
        { j with status := .failed, error := some "max attempts exceeded",
                 updated_at := now }) := by
  by_cases h : row.attempts < row.max_attempts
  · have h1 := getJob_condUpdate s row.id (fun _ => true)
      (fun j => { j with status := Status.queued, holder := none, lease_until := none,
                         updated_at := now }) (fun _ => rfl)
    simp only [requeueStep, if_pos h, getJob_log_event]
    rw [h1, hj]
    rfl
  · have h1 := getJob_condUpdate s row.id (fun _ => true)
      (fun j => { j with status := Status.failed, error := some "max attempts exceeded",
                         updated_at := now }) (fun _ => rfl)
    simp only [requeueStep, if_neg h, getJob_log_event]
    rw [h1, hj]
    rfl

theorem getJob_requeue_fold_ne (now : ℚ) (x : String) (rows : List Job) :
    ∀ s : Store, (∀ r ∈ rows, r.id ≠ x) →
      getJob (rows.foldl (requeueStep now) s) x = getJob s x := by
  induction rows with
  | nil => intro s _; rfl
  | cons r rest ih =>
    intro s h
    rw [List.foldl_cons, ih _ (fun r' hr' => h r' (List.mem_cons_of_mem _ hr'))]
    exact getJob_requeueStep_ne now s r (Ne.symm (h r (List.mem_cons_self r rest)))

theorem getJob_requeue_fold_mem (now : ℚ) (rows : List Job) :
    ∀ (s : Store) (row : Job), (rows.map (fun r => r.id)).Nodup → row ∈ rows →
      getJob s row.id = some row →
      getJob (rows.foldl (requeueStep now) s) row.id = some (requeueTarget now row) := by
  induction rows with
  | nil => intro s row _ h; cases h
  | cons r rest ih =>
    intro s row hn hmem hget
    rw [List.map_cons, List.nodup_cons] at hn
    rcases List.mem_cons.mp hmem with rfl | hmem'
    · rw [List.foldl_cons,
        getJob_requeue_fold_ne now row.id rest _
          (fun r' hr' hid => hn.1 (hid ▸ List.mem_map_of_mem _ hr')),
        getJob_requeueStep_self now s hget]
      rfl
    · have hrne : r.id ≠ row.id := fun h => hn.1 (h ▸ List.mem_map_of_mem _ hmem')
      rw [List.foldl_cons]
      refine ih _ row hn.2 hmem' ?_
      rw [getJob_requeueStep_ne now s r (Ne.symm hrne)]
      exact hget

theorem stale_filter_nodup {s : Store} (hn : NodupIds s) (p : Job → Bool) :
    ((s.jobs.filter p).map (fun j => j.id)).Nodup :=
  List.Nodup.sublist (List.Sublist.map _ (List.filter_sublist _)) hn

/-- `requeue_stale` moves each stale job to its `requeueTarget`. -/
theorem requeue_stale_getJob (s : Store) (now : ℚ) (hn : NodupIds s) {j : Job}
    (hj : j ∈ s.jobs)
    (hstale : (decide (j.status = Status.running) && leaseExpired now j.lease_until) = true) :
    getJob (requeue_stale s now) j.id = some (requeueTarget now j) := by
  unfold requeue_stale
  exact getJob_requeue_fold_mem now _ s j (stale_filter_nodup hn _)
    (List.mem_filter.mpr ⟨hj, hstale⟩) (getJob_of_mem_nodup hn hj)

/-! ### Generic preservation machinery -/

theorem foldl_pres {σ : Type} (P : Store → Prop) (step : Store → σ → Store)
    (hstep : ∀ s r, P s → P (step s r)) (l : List σ) :
    ∀ s : Store, P s → P (l.foldl step s) := by
  induction l with
  | nil => intro s h; exact h
  | cons a t ih => intro s h; exact ih _ (hstep s a h)

theorem JobsProp_condUpdate {P : Job → Prop} {s : Store} (x : String) (cond : Job → Bool)
    (f : Job → Job) (h : JobsProp P s) (hf : ∀ j ∈ s.jobs, cond j = true → P j → P (f j)) :
    JobsProp P (condUpdate s x cond f).1 := by
  intro j' hj'
  simp only [condUpdate, List.mem_map] at hj'
  obtain ⟨j, hj, rfl⟩ := hj'
  by_cases hc : (decide (j.id = x) && cond j) = true
  · rw [if_pos hc]
    exact hf j hj ((Bool.and_eq_true _ _).mp hc).2 (h j hj)
  · rw [if_neg hc]
    exact h j hj

theorem JobsProp_log_event {P : Job → Prop} {s : Store} (h : JobsProp P s)
    (now : ℚ) (i : Option String) (k m : String) : JobsProp P (log_event s now i k m) :=
  fun j hj => h j hj

theorem NodupIds_map_jobs {s : Store} (g : Job → Job) (hg : ∀ j, (g j).id = j.id)
    (hn : NodupIds s) : ((s.jobs.map g).map (fun j => j.id)).Nodup := by
  rw [List.map_map]
  have h : List.map ((fun j => j.id) ∘ g) s.jobs = List.map (fun j => j.id) s.jobs :=
    List.map_congr_left (fun j _ => hg j)
  rw [h]
  exact hn

theorem NodupIds_condUpdate {s : Store} (x : String) (cond : Job → Bool) (f : Job → Job)
    (hf : ∀ j, (f j).id = j.id) (hn : NodupIds s) : NodupIds (condUpdate s x cond f).1 := by
  refine NodupIds_map_jobs _ ?_ hn
  intro j
  split
  · exact hf j
  · rfl

theorem foldl_pres_pair {σ τ : Type} (P : Store → Prop) (step : Store × τ → σ → Store × τ)
    (hstep : ∀ a r, P a.1 → P (step a r).1) (l : List σ) :
    ∀ a : Store × τ, P a.1 → P (l.foldl step a).1 := by
  induction l with
  | nil => intro a h; exact h
  | cons r rest ih => intro a h; exact ih _ (hstep a r h)

theorem JobsProp_requeueStep {P : Job → Prop} (now : ℚ) (s : Store) (row : Job)
    (h : JobsProp P s)
    (hq : ∀ j ∈ s.jobs, P j →
      P { j with status := Status.queued, holder := none, lease_until := none,
                 updated_at := now })
    (hx : ∀ j ∈ s.jobs, P j →
      P { j with status := Status.failed, error := some "max attempts exceeded",
                 updated_at := now }) :
    JobsProp P (requeueStep now s row) := by
  unfold requeueStep
  split
  · exact JobsProp_log_event (JobsProp_condUpdate _ _ _ h (fun j hj _ hP => hq j hj hP)) _ _ _ _
  · exact JobsProp_log_event (JobsProp_condUpdate _ _ _ h (fun j hj _ hP => hx j hj hP)) _ _ _ _

theorem JobsProp_requeue_stale {P : Job → Prop} (now : ℚ) (s : Store) (h : JobsProp P s)
    (hq : ∀ (j : Job), P j →
      P { j with status := Status.queued, holder := none, lease_until := none,
                 updated_at := now })
    (hx : ∀ (j : Job), P j →
      P { j with status := Status.failed, error := some "max attempts exceeded",
                 updated_at := now }) :
    JobsProp P (requeue_stale s now) := by
  unfold requeue_stale
  exact foldl_pres _ _ (fun s' r h' =>
    JobsProp_requeueStep now s' r h' (fun j _ => hq j) (fun j _ => hx j)) _ s h

theorem JobsProp_claimStep {P : Job → Prop} (artifacts : Option (List String))
    (holder : String) (lease_until now : ℚ) (acc : Store × List Job) (row : Job)
    (h : JobsProp P acc.1)
    (hdone : ∀ (j : Job), j.status = Status.queued → P j →
      P { j with status := Status.done, holder := some holder, updated_at := now })
    (hrun : ∀ (j : Job), j.status = Status.queued → P j →
      P { j with status := Status.running, holder := some holder,
                 lease_until := some lease_until, attempts := j.attempts + 1,
                 updated_at := now }) :
    JobsProp P (claimStep artifacts holder lease_until now acc row).1 := by
  unfold claimStep
  split
  · exact JobsProp_log_event (JobsProp_condUpdate _ _ _ h
      (fun j _ hc hP => hdone j (of_decide_eq_true hc) hP)) _ _ _ _
  · dsimp only
    split
    · exact JobsProp_log_event (JobsProp_condUpdate _ _ _ h
        (fun j _ hc hP => hrun j (of_decide_eq_true hc) hP)) _ _ _ _
    · exact JobsProp_condUpdate _ _ _ h
        (fun j _ hc hP => hrun j (of_decide_eq_true hc) hP)

theorem JobsProp_claim_ready {P : Job → Prop} (s : Store) (artifacts : Option (List String))
    (holder : String) (lane : Option Int) (batch : Nat) (lease_ms now : ℚ)
    (h : JobsProp P s)
    (hq : ∀ (j : Job), P j →
      P { j with status := Status.queued, holder := none, lease_until := none,
                 updated_at := now })
    (hx : ∀ (j : Job), P j →
      P { j with status := Status.failed, error := some "max attempts exceeded",
                 updated_at := now })
    (hdone : ∀ (j : Job), j.status = Status.queued → P j →
      P { j with status := Status.done, holder := some holder, updated_at := now })
    (hrun : ∀ (j : Job) (lu : ℚ), j.status = Status.queued → P j →
      P { j with status := Status.running, holder := some holder,
                 lease_until := some lu, attempts := j.attempts + 1,
                 updated_at := now }) :
    JobsProp P (claim_ready s artifacts holder lane batch lease_ms now).1 := by
  unfold claim_ready
  exact foldl_pres_pair _ _
    (fun a r h' => JobsProp_claimStep artifacts holder _ now a r h' hdone
      (fun j hc hP => hrun j _ hc hP)) _ _
    (JobsProp_requeue_stale now s h hq hx)

/-! ### The running-implies-holder-and-lease invariant (claim C2) -/

theorem RunningImp_of_status {j : Job} (h : j.status ≠ Status.running) : RunningImp j :=
  fun hr => absurd hr h

theorem JobsProp_enqueue {P : Job → Prop} {s s' : Store} (h : JobsProp P s)
    {now : ℚ} {job_id : String} {lane : Int} {payload : String} {dk : Option String} {ma : Nat}
    (hok : enqueue_job s now job_id lane payload dk ma = Except.ok s')
    (hnew : P { id := job_id, lane := lane, payload := payload, status := Status.queued,
                holder := none, lease_until := none, created_at := now, updated_at := now,
                error := none, attempts := 0, max_attempts := ma, dedupe_key := dk }) :
    JobsProp P s' := by
  unfold enqueue_job at hok
  by_cases hv : validate_payload payload
  · simp only [hv, Bool.not_true, Bool.false_eq_true, if_false, Except.ok.injEq] at hok
    subst hok
    refine JobsProp_log_event ?_ _ _ _ _
    split
    · exact h
    · intro j hj
      rcases List.mem_append.mp hj with hj' | hj'
      · exact h j hj'
      · rw [List.mem_singleton.mp hj']
        exact hnew
  · simp [hv] at hok

/-- C2 (amended): every operation of the scheduler preserves the one-way
invariant that a `running` job has a non-null `holder` and a non-null
`lease_until`.  (The biconditional stated in the spec fails: see the
counterexample.) -/
theorem C2_running_has_holder_and_lease (s : Store) (h : ∀ j ∈ s.jobs, RunningImp j) :
    (∀ (now : ℚ) (job_id : String) (lane : Int) (payload : String) (dk : Option String)
        (ma : Nat) (s' : Store), enqueue_job s now job_id lane payload dk ma = Except.ok s' →
        ∀ j ∈ s'.jobs, RunningImp j) ∧
    (∀ (artifacts : Option (List String)) (holder : String) (lane : Option Int)
        (batch : Nat) (lease_ms now : ℚ),
        ∀ j ∈ (claim_ready s artifacts holder lane batch lease_ms now).1.jobs, RunningImp j) ∧
    (∀ (job_id holder : String) (lease_ms now : ℚ),
        ∀ j ∈ (heartbeat s job_id holder lease_ms now).1.jobs, RunningImp j) ∧
    (∀ (now : ℚ) (job_id : String) (holder : Option String),
        ∀ j ∈ (mark_done s now job_id holder).jobs, RunningImp j) ∧
    (∀ (now : ℚ) (job_id err : String) (holder : Option String),
        ∀ j ∈ (mark_failed s now job_id err holder).jobs, RunningImp j) ∧
    (∀ now : ℚ, ∀ j ∈ (requeue_stale s now).jobs, RunningImp j) := by
  refine ⟨?_, ?_, ?_, ?_, ?_, ?_⟩
  · intro now job_id lane payload dk ma s' hok
    exact JobsProp_enqueue h hok (RunningImp_of_status (by simp))
  · intro artifacts holder lane batch lease_ms now
    refine JobsProp_claim_ready s artifacts holder lane batch lease_ms now h ?_ ?_ ?_ ?_
    · exact fun j _ => RunningImp_of_status (by simp)
    · exact fun j _ => RunningImp_of_status (by simp)
    · exact fun j _ _ => RunningImp_of_status (by simp)
    · exact fun j lu _ _ => fun _ => ⟨by simp, by simp⟩
  · intro job_id holder lease_ms now
    refine JobsProp_condUpdate _ _ _ h ?_
    intro j _ hc _
    have hc' := (Bool.and_eq_true _ _).mp hc
    have hold : j.holder = some holder := of_decide_eq_true hc'.2
    intro _
    exact ⟨by simp [hold], by simp⟩
  · intro now job_id holder
    unfold mark_done
    split
    · exact JobsProp_log_event (JobsProp_condUpdate _ _ _ h
        (fun j _ _ _ => RunningImp_of_status (by simp))) _ _ _ _
    · exact JobsProp_log_event (JobsProp_condUpdate _ _ _ h
        (fun j _ _ _ => RunningImp_of_status (by simp))) _ _ _ _
  · intro now job_id err holder
    unfold mark_failed
    split
    · exact JobsProp_log_event (JobsProp_condUpdate _ _ _ h
        (fun j _ _ _ => RunningImp_of_status (by simp))) _ _ _ _
    · exact JobsProp_log_event (JobsProp_condUpdate _ _ _ h
        (fun j _ _ _ => RunningImp_of_status (by simp))) _ _ _ _
  · intro now
    exact JobsProp_requeue_stale now s h
      (fun j _ => RunningImp_of_status (by simp))
      (fun j _ => RunningImp_of_status (by simp))

/-- C2 counterexample: after a legitimate claim followed by `mark_done`, the
job is `done` but `holder` and `lease_until` are still non-null: the
biconditional `status=running ⇔ holder≠null ∧ lease_until≠null` is violated
in a reachable state (`mark_done` never clears `holder`/`lease_until`). -/
theorem C2_counterexample :
    ∃ j ∈ c2Store.jobs,
      ¬ (j.status = Status.running ↔ j.holder ≠ none ∧ j.lease_until ≠ none) := by
  decide

theorem C2_running_has_holder_and_lease_witness :
    (∀ j ∈ c2WitnessStore.jobs, RunningImp j) ∧
    (∀ j ∈ (mark_done c2WitnessStore 3 "j" (some "w")).jobs, RunningImp j) :=
  have h : ∀ j ∈ c2WitnessStore.jobs, RunningImp j := by decide
  ⟨h, (C2_running_has_holder_and_lease c2WitnessStore h).2.2.2.1 3 "j" (some "w")⟩

/-! ### The command-safety gate (claims C4, C9) -/

/-- C4 counterexample: a command that (after stripping) begins with `./` is
nonetheless rejected when it contains a blocklist substring — here `sudo ` —
because the blocklist is evaluated before the `./` escape hatch.  The claim
that such commands are permitted regardless of the remainder is false. -/
theorem C4_counterexample :
    ['.', '/'].isPrefixOf (stripChars "./build.sh && sudo reboot".data) = true ∧
    is_cmd_safe "./build.sh && sudo reboot" = false := by
  decide

/-- C4 (amended): a command that (after stripping surrounding whitespace)
begins with `./` is permitted by `is_cmd_safe`, provided it contains no
blocklist substring. -/
theorem C4_dotslash_permitted (cmd : String)
    (hp : ['.', '/'].isPrefixOf (stripChars cmd.data) = true)
    (hb : ∀ b ∈ CMD_BLOCKLIST, isSubstrOf b.data (stripChars cmd.data) = false) :
    is_cmd_safe cmd = true := by
  unfold is_cmd_safe
  dsimp only
  have hany : CMD_BLOCKLIST.any (fun b => isSubstrOf b.data (stripChars cmd.data)) = false :=
    List.any_eq_false.mpr (fun b hbm => by simp [hb b hbm])
  rw [hany]
  simp only [Bool.false_eq_true, if_false]
  by_cases hc : CMD_ALLOWLIST.any (fun p =>
      p.data.isPrefixOf (stripChars cmd.data) ||
        decide (stripChars cmd.data = stripChars p.data)) = true
  · rw [if_pos hc]
  · rw [if_neg hc, if_pos hp]

theorem C4_dotslash_permitted_witness :
    (['.', '/'].isPrefixOf (stripChars "./deploy.sh prod".data) = true ∧
      (∀ b ∈ CMD_BLOCKLIST, isSubstrOf b.data (stripChars "./deploy.sh prod".data) = false)) ∧
    is_cmd_safe "./deploy.sh prod" = true :=
  ⟨⟨by decide, by decide⟩, C4_dotslash_permitted "./deploy.sh prod" (by decide) (by decide)⟩

/-- C9: a command whose stripped text equals a stripped allowlist entry (for
example the bare word `echo` for the entry `"echo "`) passes the gate,
provided it contains no blocklist substring. -/
theorem C9_bare_allowlist_word (cmd p : String) (hp : p ∈ CMD_ALLOWLIST)
    (heq : stripChars cmd.data = stripChars p.data)
    (hb : ∀ b ∈ CMD_BLOCKLIST, isSubstrOf b.data (stripChars cmd.data) = false) :
    is_cmd_safe cmd = true := by
  unfold is_cmd_safe
  dsimp only
  have hany : CMD_BLOCKLIST.any (fun b => isSubstrOf b.data (stripChars cmd.data)) = false :=
    List.any_eq_false.mpr (fun b hbm => by simp [hb b hbm])
  rw [hany]
  simp only [Bool.false_eq_true, if_false]
  have hc : CMD_ALLOWLIST.any (fun q =>
      q.data.isPrefixOf (stripChars cmd.data) ||
        decide (stripChars cmd.data = stripChars q.data)) = true :=
    List.any_eq_true.mpr ⟨p, hp, by rw [heq]; simp⟩
  rw [if_pos hc]

theorem C9_bare_allowlist_word_witness :
    ("echo " ∈ CMD_ALLOWLIST ∧ stripChars "echo".data = stripChars "echo ".data ∧
      (∀ b ∈ CMD_BLOCKLIST, isSubstrOf b.data (stripChars "echo".data) = false)) ∧
    is_cmd_safe "echo" = true :=
  ⟨⟨by decide, by decide, by decide⟩,
    C9_bare_allowlist_word "echo" "echo " (by decide) (by decide) (by decide)⟩

/-! ### Heartbeat (claim C7) and guarded terminal updates (claim C8) -/

theorem find?_id_spec : ∀ {l : List Job} {x : String} {j : Job},
    l.find? (fun k => decide (k.id = x)) = some j → j.id = x ∧ j ∈ l := by
  intro l
  induction l with
  | nil => intro x j h; cases h
  | cons a t ih =>
    intro x j h
    by_cases ha : a.id = x
    · rw [List.find?_cons_of_pos _ (by simp [ha])] at h
      cases h
      exact ⟨ha, List.mem_cons_self _ _⟩
    · rw [List.find?_cons_of_neg _ (by simp [ha])] at h
      obtain ⟨h1, h2⟩ := ih h
      exact ⟨h1, List.mem_cons_of_mem _ h2⟩

theorem getJob_id_of_eq_some {s : Store} {x : String} {j : Job}
    (hj : getJob s x = some j) : j.id = x :=
  (find?_id_spec hj).1

theorem getJob_mem_of_eq_some {s : Store} {x : String} {j : Job}
    (hj : getJob s x = some j) : j ∈ s.jobs :=
  (find?_id_spec hj).2

theorem condUpdate_jobs_map_status (s : Store) (x : String) (cond : Job → Bool)
    (f : Job → Job) (hf : ∀ j, (f j).status = j.status) :
    (condUpdate s x cond f).1.jobs.map (fun j => j.status) =
      s.jobs.map (fun j => j.status) := by
  show (s.jobs.map _).map _ = _
  rw [List.map_map]
  refine List.map_congr_left ?_
  intro j _
  show (if decide (j.id = x) && cond j then f j else j).status = j.status
  split
  · exact hf j
  · rfl

theorem condUpdate_jobs_of_no_match {s : Store} {x : String} (cond : Job → Bool)
    (f : Job → Job) (h : ∀ k ∈ s.jobs, k.id = x → cond k = false) :
    (condUpdate s x cond f).1.jobs = s.jobs := by
  show s.jobs.map _ = s.jobs
  have hptw : ∀ k ∈ s.jobs, (if decide (k.id = x) && cond k then f k else k) = k := by
    intro k hk
    by_cases hkx : k.id = x
    · rw [h k hk hkx]
      simp
    · simp [hkx]
  calc s.jobs.map _ = s.jobs.map id := List.map_congr_left hptw
    _ = s.jobs := List.map_id _

theorem condUpdate_fst_eq_self {s : Store} {x : String} {cond : Job → Bool} {f : Job → Job}
    (h : ∀ k ∈ s.jobs, k.id = x → cond k = false) : (condUpdate s x cond f).1 = s := by
  have hjobs : (condUpdate s x cond f).1.jobs = s.jobs := condUpdate_jobs_of_no_match _ _ h
  cases s with
  | mk jobs deps events =>
    simp only [condUpdate] at hjobs ⊢
    rw [hjobs]

theorem cond_false_of_unique {s : Store} (hn : NodupIds s) {x : String} {j : Job}
    (hj : getJob s x = some j) {cond : Job → Bool} (hc : cond j = false) :
    ∀ k ∈ s.jobs, k.id = x → cond k = false := by
  intro k hk hkx
  have hjmem : j ∈ s.jobs := getJob_mem_of_eq_some hj
  have hjid : j.id = x := getJob_id_of_eq_some hj
  have hkj : k = j := List.inj_on_of_nodup_map hn hk hjmem (by rw [hkx, hjid])
  rw [hkj]
  exact hc

/-- C7: `heartbeat(id, holder)` returns true iff the store records the job as
running and held by the given holder; it never changes any status; on failure
the whole store is untouched (no event is logged either); on success the
job's `lease_until` becomes `now + lease_ms/1000` (with `updated_at`
stamped), all other fields kept. -/
theorem C7_heartbeat_spec (s : Store) (hn : NodupIds s) (job_id holder : String)
    (lease_ms now : ℚ) :
    ((heartbeat s job_id holder lease_ms now).2 = true ↔
      ∃ j ∈ s.jobs, j.id = job_id ∧ j.status = Status.running ∧ j.holder = some holder) ∧
    ((heartbeat s job_id holder lease_ms now).1.jobs.map (fun j => j.status) =
      s.jobs.map (fun j => j.status)) ∧
    ((heartbeat s job_id holder lease_ms now).2 = false →
      (heartbeat s job_id holder lease_ms now).1 = s) ∧
    (∀ j, getJob s job_id = some j → (heartbeat s job_id holder lease_ms now).2 = true →
      getJob (heartbeat s job_id holder lease_ms now).1 job_id =
        some { j with lease_until := some (now + lease_ms / 1000), updated_at := now }) := by
  unfold heartbeat
  refine ⟨?_, ?_, ?_, ?_⟩
  · rw [condUpdate_snd]
    simp [Bool.and_eq_true, decide_eq_true_eq, and_assoc]
  · exact condUpdate_jobs_map_status s job_id _ _ (fun _ => rfl)
  · intro h2
    refine condUpdate_fst_eq_self ?_
    intro k hk hkx
    have hk2 := List.any_eq_false.mp h2 k hk
    simp only [Bool.not_eq_true] at hk2
    rcases Bool.and_eq_false_iff.mp hk2 with h' | h'
    · exact absurd (decide_eq_true hkx) (by simp [h'])
    · exact h'
  · intro j hj h2
    have hjmem : j ∈ s.jobs := getJob_mem_of_eq_some hj
    have hjid : j.id = job_id := getJob_id_of_eq_some hj
    obtain ⟨j', hmem', hcond⟩ := List.any_eq_true.mp h2
    have hj'id : j'.id = job_id := of_decide_eq_true ((Bool.and_eq_true _ _).mp hcond).1
    have hjj : j' = j := List.inj_on_of_nodup_map hn hmem' hjmem (by rw [hj'id, hjid])
    have hcondj : (decide (j.status = Status.running) && decide (j.holder = some holder))
        = true := by
      have h3 := ((Bool.and_eq_true _ _).mp hcond).2
      rw [hjj] at h3
      exact h3
    have hgc := getJob_condUpdate s job_id
      (fun j => decide (j.status = Status.running) && decide (j.holder = some holder))
      (fun j => { j with lease_until := some (now + lease_ms / 1000), updated_at := now })
      (fun _ => rfl)
    rw [hgc, hj]
    exact congrArg some (if_pos hcondj)

theorem C7_heartbeat_spec_witness :
    NodupIds c7Store ∧
    ((heartbeat c7Store "j" "w" 30000 5).2 = true ↔
      ∃ j ∈ c7Store.jobs, j.id = "j" ∧ j.status = Status.running ∧ j.holder = some "w") :=
  have hn : NodupIds c7Store := by decide
  ⟨hn, (C7_heartbeat_spec c7Store hn "j" "w" 30000 5).1⟩

/-- C8 (amended): `mark_done` and `mark_failed` change the job only when its
status is `running` and, when a NON-empty holder is supplied, the stored
holder equals the given one; otherwise the job row is unchanged (only an
event row is appended) — in particular a late mark-done or mark-failed from a
worker whose lease was stolen does not alter the job.  By Python truthiness an
empty-string holder behaves like no holder at all (see the counterexample). -/
theorem C8_mark_guarded (s : Store) (hn : NodupIds s) (now : ℚ) (job_id err : String)
    (holder : Option String) (j : Job) (hj : getJob s job_id = some j) :
    (¬ (j.status = Status.running ∧ (pyTruthy holder = true → j.holder = holder)) →
      (mark_done s now job_id holder).jobs = s.jobs ∧
      (mark_failed s now job_id err holder).jobs = s.jobs) ∧
    (j.status = Status.running → (pyTruthy holder = true → j.holder = holder) →
      getJob (mark_done s now job_id holder) job_id =
        some { j with status := Status.done, updated_at := now } ∧
      getJob (mark_failed s now job_id err holder) job_id =
        some { j with status := Status.failed, error := some (strTake err 1000),
                      updated_at := now }) := by
  constructor
  · intro hng
    unfold mark_done mark_failed
    dsimp only
    by_cases ht : pyTruthy holder = true
    · rw [if_pos ht, if_pos ht]
      have hc : (decide (j.status = Status.running) && decide (j.holder = holder)) = false := by
        by_cases hr : j.status = Status.running
        · have hne : ¬ j.holder = holder := fun he => hng ⟨hr, fun _ => he⟩
          simp [hne]
        · simp [hr]
      exact ⟨condUpdate_jobs_of_no_match _ _ (cond_false_of_unique hn hj hc),
        condUpdate_jobs_of_no_match _ _ (cond_false_of_unique hn hj hc)⟩
    · rw [if_neg ht, if_neg ht]
      have hr : ¬ j.status = Status.running := fun hr =>
        hng ⟨hr, fun htt => absurd htt ht⟩
      have hc : decide (j.status = Status.running) = false := by simp [hr]
      exact ⟨condUpdate_jobs_of_no_match _ _ (cond_false_of_unique hn hj hc),
        condUpdate_jobs_of_no_match _ _ (cond_false_of_unique hn hj hc)⟩
  · intro hrun hhold
    unfold mark_done mark_failed
    dsimp only
    by_cases ht : pyTruthy holder = true
    · rw [if_pos ht, if_pos ht]
      have hc : (decide (j.status = Status.running) && decide (j.holder = holder)) = true := by
        simp [hrun, hhold ht]
      constructor
      · rw [getJob_log_event]
        have hgc := getJob_condUpdate s job_id
          (fun k => decide (k.status = Status.running) && decide (k.holder = holder))
          (fun k => { k with status := Status.done, updated_at := now }) (fun _ => rfl)
        rw [hgc, hj]
        exact congrArg some (if_pos hc)
      · rw [getJob_log_event]
        have hgc := getJob_condUpdate s job_id
          (fun k => decide (k.status = Status.running) && decide (k.holder = holder))
          (fun k => { k with status := Status.failed, error := some (strTake err 1000),
                             updated_at := now }) (fun _ => rfl)
        rw [hgc, hj]
        exact congrArg some (if_pos hc)
    · rw [if_neg ht, if_neg ht]
      have hc : decide (j.status = Status.running) = true := decide_eq_true hrun
      constructor
      · rw [getJob_log_event]
        have hgc := getJob_condUpdate s job_id
          (fun k => decide (k.status = Status.running))
          (fun k => { k with status := Status.done, updated_at := now }) (fun _ => rfl)
        rw [hgc, hj]
        exact congrArg some (if_pos hc)
      · rw [getJob_log_event]
        have hgc := getJob_condUpdate s job_id
          (fun k => decide (k.status = Status.running))
          (fun k => { k with status := Status.failed, error := some (strTake err 1000),
                             updated_at := now }) (fun _ => rfl)
        rw [hgc, hj]
        exact congrArg some (if_pos hc)

/-- C8 counterexample: the job is running and held by `w1`; `mark_done` is
called with the supplied holder `""` — which does not match `w1` — yet the
job is changed to done: an empty-string holder is falsy in Python, so the
holder guard is skipped, contradicting the claim as stated. -/
theorem C8_counterexample :
    (∃ j ∈ c8Store.jobs, j.id = "j" ∧ j.status = Status.running ∧ j.holder = some "w1") ∧
    (∃ j ∈ (mark_done c8Store 3 "j" (some "")).jobs,
      j.id = "j" ∧ j.status = Status.done) := by
  decide

theorem C8_mark_guarded_witness :
    NodupIds c8WStore ∧ getJob c8WStore "j" = some c8WJob ∧
    ¬ (c8WJob.status = Status.running ∧
        (pyTruthy (some "w") = true → c8WJob.holder = some "w")) ∧
    ((mark_done c8WStore 5 "j" (some "w")).jobs = c8WStore.jobs ∧
      (mark_failed c8WStore 5 "j" "boom" (some "w")).jobs = c8WStore.jobs) :=
  have hn : NodupIds c8WStore := by decide
  have hj : getJob c8WStore "j" = some c8WJob := by decide
  have hng : ¬ (c8WJob.status = Status.running ∧
      (pyTruthy (some "w") = true → c8WJob.holder = some "w")) := by decide
  ⟨hn, hj, hng, (C8_mark_guarded c8WStore hn 5 "j" "boom" (some "w") c8WJob hj).1 hng⟩

/-! ### Ready-selection ordering (claim C3) and batch slots (claim C10) -/

/-- C3 counterexample: both jobs are ready with equal `created_at`; the id
`a` is lexicographically smaller than `b`, yet the claim call returns `b`
first — the query orders by `created_at` only (ties fall back to table
order), with no id tiebreak. -/
theorem C3_counterexample :
    (∀ j ∈ c3Store.jobs, j.created_at = 5 ∧ readyRow c3Store none j = true) ∧
    "a".data < "b".data ∧
    (claim_ready c3Store none "w" none 2 30000 6).2.map (fun j => j.id) = ["b", "a"] := by
  refine ⟨by decide, by decide, by decide⟩

/-- C3 (amended): ready selection is FIFO by `created_at`; rows with equal
`created_at` come out in the store's insertion order (the selection is a
stable sort of the table order), not in id order.  In particular, when the
ready rows are already in non-decreasing `created_at` order — which is how
`enqueue` stamps them under a monotone clock — selection is exactly the first
`batch` ready rows in table order. -/
theorem C3_fifo_created_at :
    (∀ (s : Store) (lane : Option Int) (batch : Nat),
      (selectReady s lane batch).Pairwise (fun a b => a.created_at ≤ b.created_at)) ∧
    (∀ (s : Store) (lane : Option Int) (batch : Nat),
      (s.jobs.filter (readyRow s lane)).Pairwise (fun a b => a.created_at ≤ b.created_at) →
      selectReady s lane batch = (s.jobs.filter (readyRow s lane)).take batch) := by
  constructor
  · intro s lane batch
    have hs : ((s.jobs.filter (readyRow s lane)).insertionSort createdLE).Pairwise createdLE :=
      List.sorted_insertionSort createdLE _
    exact List.Pairwise.sublist (List.take_sublist _ _) hs
  · intro s lane batch hsorted
    have hs : List.Sorted createdLE (s.jobs.filter (readyRow s lane)) := hsorted
    unfold selectReady
    rw [List.Sorted.insertionSort_eq hs]

theorem C3_fifo_created_at_witness :
    ((c3Store.jobs.filter (readyRow c3Store none)).Pairwise
      (fun a b => a.created_at ≤ b.created_at)) ∧
    selectReady c3Store none 1 = (c3Store.jobs.filter (readyRow c3Store none)).take 1 :=
  ⟨by decide, C3_fifo_created_at.2 c3Store none 1 (by decide)⟩

theorem claimStep_snd_len (artifacts : Option (List String)) (holder : String)
    (lease_until now : ℚ) (acc : Store × List Job) (row : Job) :
    (claimStep artifacts holder lease_until now acc row).2.length ≤ acc.2.length + 1 := by
  unfold claimStep
  split
  · exact Nat.le_succ_of_le (Nat.le_refl _)
  · dsimp only
    split
    · simp
    · exact Nat.le_succ_of_le (Nat.le_refl _)

theorem claim_fold_len (artifacts : Option (List String)) (holder : String)
    (lease_until now : ℚ) (rows : List Job) :
    ∀ acc : Store × List Job,
      ((rows.foldl (claimStep artifacts holder lease_until now) acc).2).length ≤
        acc.2.length + rows.length := by
  induction rows with
  | nil => intro acc; simp
  | cons r rest ih =>
    intro acc
    rw [List.foldl_cons]
    refine le_trans (ih _) ?_
    have h1 := claimStep_snd_len artifacts holder lease_until now acc r
    simp only [List.length_cons]
    omega

/-- C10: a claim call never returns more than `batch` jobs, and dedupe-skipped
candidates consume batch slots: in the concrete store below, `batch = 1`
selects only the older job, which is dedupe-skipped, so the call returns no
claimed job even though a ready job without a matching artifact exists. -/
theorem C10_batch_slots :
    (∀ (s : Store) (artifacts : Option (List String)) (holder : String)
        (lane : Option Int) (batch : Nat) (lease_ms now : ℚ),
      (claim_ready s artifacts holder lane batch lease_ms now).2.length ≤ batch) ∧
    ((claim_ready c10Store c10Art "w" none 1 30000 3).2 = [] ∧
      ∃ j ∈ c10Store.jobs, readyRow c10Store none j = true ∧
        check_dedupe c10Art j.dedupe_key = false) := by
  constructor
  · intro s artifacts holder lane batch lease_ms now
    unfold claim_ready
    refine le_trans (claim_fold_len _ _ _ _ _ _) ?_
    simp only [List.length_nil, Nat.zero_add]
    exact le_trans (Nat.le_refl _) (by simp [selectReady] )
  · exact ⟨by decide, by decide⟩

/-! ### Plan compilation atomicity (claim C1) -/

theorem enqueue_job_ok_spec {s : Store} {now : ℚ} {job_id : String} {lane : Int}
    {payload : String} {dk : Option String} {ma : Nat}
    (hv : validate_payload payload = true) :
    ∃ s' : Store, enqueue_job s now job_id lane payload dk ma = Except.ok s' ∧
      s'.deps = s.deps ∧ (∃ j ∈ s'.jobs, j.id = job_id) ∧
      (∀ x, (∃ j ∈ s.jobs, j.id = x) → ∃ j ∈ s'.jobs, j.id = x) := by
  unfold enqueue_job
  simp only [hv, Bool.not_true, Bool.false_eq_true, if_false]
  by_cases hany : s.jobs.any (fun j => decide (j.id = job_id)) = true
  · rw [if_pos hany]
    obtain ⟨j, hjmem, hjid⟩ := List.any_eq_true.mp hany
    exact ⟨_, rfl, rfl, ⟨j, hjmem, of_decide_eq_true hjid⟩, fun x hx => hx⟩
  · rw [if_neg hany]
    refine ⟨_, rfl, rfl, ?_, ?_⟩
    · exact ⟨_, List.mem_append_right _ (List.mem_singleton.mpr rfl), rfl⟩
    · rintro x ⟨j, hjmem, hjid⟩
      exact ⟨j, List.mem_append_left _ hjmem, hjid⟩

theorem expand_phase1 (now : ℚ) :
    ∀ (steps : List Step) (s : Store),
      (∀ st ∈ steps, validate_payload st.payload = true) →
      ∃ committed : Store,
        (steps.foldlM (fun acc st =>
          enqueue_job acc now st.global_id st.lane st.payload st.dedupe_key MAX_ATTEMPTS) s
          = Except.ok committed) ∧
        committed.deps = s.deps ∧
        (∀ st ∈ steps, ∃ j ∈ committed.jobs, j.id = st.global_id) ∧
        (∀ x, (∃ j ∈ s.jobs, j.id = x) → ∃ j ∈ committed.jobs, j.id = x) := by
  intro steps
  induction steps with
  | nil =>
    intro s _
    exact ⟨s, rfl, rfl, by simp, fun x hx => hx⟩
  | cons st rest ih =>
    intro s hval
    obtain ⟨s₁, hok, hdeps₁, hid₁, hmono₁⟩ :=
      @enqueue_job_ok_spec s now st.global_id st.lane st.payload st.dedupe_key MAX_ATTEMPTS
        (hval st (List.mem_cons_self _ _))
    obtain ⟨committed, hfold, hdeps₂, hids₂, hmono₂⟩ :=
      ih s₁ (fun st' hst' => hval st' (List.mem_cons_of_mem _ hst'))
    refine ⟨committed, ?_, by rw [hdeps₂, hdeps₁], ?_, ?_⟩
    · rw [List.foldlM_cons, hok]
      exact hfold
    · intro st' hst'
      rcases List.mem_cons.mp hst' with rfl | hst''
      · exact hmono₂ _ hid₁
      · exact hids₂ st' hst''
    · exact fun x hx => hmono₂ x (hmono₁ x hx)

/-- C1 (amended): a plan with no steps fails with the store untouched, but any
later compilation error — in particular UnknownDep — is raised only after the
whole job set has been committed: after such a failed `expand_plan` the
`job_deps` table is unchanged while the `jobs` table already contains a row
for every step of the plan.  Compilation is not atomic. -/
theorem C1_expand_partial_commit (s : Store) (now : ℚ) :
    ((expand_plan s now []).1.isSome = true ∧ (expand_plan s now []).2 = s) ∧
    (∀ steps : List Step, steps ≠ [] →
      (∀ st ∈ steps, validate_payload st.payload = true) →
      (expand_plan s now steps).1.isSome = true →
      (expand_plan s now steps).2.deps = s.deps ∧
      ∀ st ∈ steps, ∃ j ∈ (expand_plan s now steps).2.jobs, j.id = st.global_id) := by
  constructor
  · exact ⟨rfl, rfl⟩
  · intro steps hne hval herr
    obtain ⟨committed, hfold, hdeps, hids, _⟩ := expand_phase1 now steps s hval
    have hemp : steps.isEmpty = false := by
      cases steps with
      | nil => exact absurd rfl hne
      | cons a t => rfl
    unfold expand_plan at herr ⊢
    rw [hemp] at herr ⊢
    simp only [Bool.false_eq_true, if_false] at herr ⊢
    rw [hfold] at herr ⊢
    simp only at herr ⊢
    cases hp2 : steps.foldlM (fun acc st =>
        st.deps.foldlM (fun acc2 dep_id =>
          match ((steps.map (fun st => (st.id, st.global_id))).reverse).lookup dep_id with
          | none => Except.error ("Step " ++ st.id ++ " depends on unknown step " ++ dep_id)
          | some gid => Except.ok (add_dep acc2 st.global_id gid)) acc) committed with
    | error e =>
      exact ⟨hdeps, hids⟩
    | ok final =>
      rw [hp2] at herr
      exact Bool.noConfusion herr

/-- C1 counterexample: compiling a plan whose only step has an unknown dep
fails, yet the jobs table is no longer what it was before the call — the job
set was committed before the dep check, so the failure is not atomic. -/
theorem C1_counterexample :
    (expand_plan emptyStore 1 [c1Step]).1.isSome = true ∧
    (expand_plan emptyStore 1 [c1Step]).2.jobs ≠ emptyStore.jobs := by
  decide

theorem C1_expand_partial_commit_witness :
    (([c1Step] : List Step) ≠ [] ∧ (∀ st ∈ [c1Step], validate_payload st.payload = true) ∧
      (expand_plan emptyStore 1 [c1Step]).1.isSome = true) ∧
    ((expand_plan emptyStore 1 [c1Step]).2.deps = emptyStore.deps ∧
      ∀ st ∈ [c1Step], ∃ j ∈ (expand_plan emptyStore 1 [c1Step]).2.jobs,
        j.id = st.global_id) :=
  ⟨⟨by decide, by decide, by decide⟩,
    (C1_expand_partial_commit emptyStore 1).2 [c1Step] (by decide) (by decide) (by decide)⟩

/-! ### The attempts cap (claim C5) -/

theorem NodupIds_log_event {s : Store} (hn : NodupIds s) (now : ℚ) (i : Option String)
    (k m : String) : NodupIds (log_event s now i k m) := hn

theorem NodupIds_enqueue {s s' : Store} (hn : NodupIds s) {now : ℚ} {job_id : String}
    {lane : Int} {payload : String} {dk : Option String} {ma : Nat}
    (hok : enqueue_job s now job_id lane payload dk ma = Except.ok s') : NodupIds s' := by
  unfold enqueue_job at hok
  by_cases hv : validate_payload payload
  · simp only [hv, Bool.not_true, Bool.false_eq_true, if_false, Except.ok.injEq] at hok
    subst hok
    refine NodupIds_log_event ?_ _ _ _ _
    by_cases hany : s.jobs.any (fun j => decide (j.id = job_id)) = true
    · rw [if_pos hany]
      exact hn
    · rw [if_neg hany]
      unfold NodupIds
      dsimp only
      rw [List.map_append]
      simp only [List.map_cons, List.map_nil]
      rw [List.nodup_append]
      refine ⟨hn, List.nodup_singleton _, ?_⟩
      intro a ha hb
      rw [List.mem_singleton] at hb
      subst hb
      obtain ⟨j, hj, hjid⟩ := List.mem_map.mp ha
      exact hany (List.any_eq_true.mpr ⟨j, hj, decide_eq_true hjid⟩)
  · simp [hv] at hok

/-- The jobs table after one `requeue_stale` loop iteration, as a single
conditional map. -/
theorem requeueStep_jobs (now : ℚ) (s : Store) (row : Job) :
    (requeueStep now s row).jobs = s.jobs.map (fun j =>
      if j.id = row.id then
        (if row.attempts < row.max_attempts then
          { j with status := Status.queued, holder := none, lease_until := none,
                   updated_at := now }
        else
          { j with status := Status.failed, error := some "max attempts exceeded",
                   updated_at := now })
      else j) := by
  by_cases hb : row.attempts < row.max_attempts
  · unfold requeueStep
    rw [if_pos hb]
    show s.jobs.map _ = s.jobs.map _
    refine List.map_congr_left ?_
    intro j _
    by_cases hj : j.id = row.id
    · simp [hj, hb]
    · simp [hj]
  · unfold requeueStep
    rw [if_neg hb]
    show s.jobs.map _ = s.jobs.map _
    refine List.map_congr_left ?_
    intro j _
    by_cases hj : j.id = row.id
    · simp [hj, hb]
    · simp [hj]

theorem NodupIds_requeueStep {s : Store} (hn : NodupIds s) (now : ℚ) (row : Job) :
    NodupIds (requeueStep now s row) := by
  unfold NodupIds
  rw [requeueStep_jobs]
  refine NodupIds_map_jobs _ ?_ hn
  intro j
  by_cases hj : j.id = row.id
  · by_cases hb : row.attempts < row.max_attempts
    · simp [hj, hb]
    · simp [hj, hb]
  · simp [hj]

theorem NodupIds_requeue_stale {s : Store} (hn : NodupIds s) (now : ℚ) :
    NodupIds (requeue_stale s now) := by
  unfold requeue_stale
  exact foldl_pres NodupIds (requeueStep now)
    (fun s' r hn' => NodupIds_requeueStep hn' now r) _ s hn

theorem requeue_fold_attemptsOK (now : ℚ) :
    ∀ (rows : List Job) (s : Store),
      (∀ j ∈ s.jobs, AttemptsOK j) →
      (∀ r ∈ rows, ∀ j ∈ s.jobs, j.id = r.id →
        j.attempts = r.attempts ∧ j.max_attempts = r.max_attempts) →
      ∀ j' ∈ (rows.foldl (requeueStep now) s).jobs, AttemptsOK j' := by
  intro rows
  induction rows with
  | nil => intro s h _; exact h
  | cons r rest ih =>
    intro s h hagree
    rw [List.foldl_cons]
    refine ih _ ?_ ?_
    · intro j' hj'
      rw [requeueStep_jobs] at hj'
      obtain ⟨j, hj, rfl⟩ := List.mem_map.mp hj'
      obtain ⟨h1, h2, h3⟩ := h j hj
      by_cases hid : j.id = r.id
      · rw [if_pos hid]
        obtain ⟨ha1, ha2⟩ := hagree r (List.mem_cons_self _ _) j hj hid
        by_cases hb : r.attempts < r.max_attempts
        · rw [if_pos hb]
          have hlt : j.attempts < j.max_attempts := by
            rw [ha1, ha2]
            exact hb
          exact ⟨h1, le_of_lt hlt, fun _ => hlt⟩
        · rw [if_neg hb]
          exact ⟨h1, h2, fun hq => Status.noConfusion hq⟩
      · rw [if_neg hid]
        exact ⟨h1, h2, h3⟩
    · intro r' hr' j' hj'
      rw [requeueStep_jobs] at hj'
      obtain ⟨j, hj, rfl⟩ := List.mem_map.mp hj'
      intro hid
      by_cases hj2 : j.id = r.id
      · by_cases hb : r.attempts < r.max_attempts
        · rw [if_pos hj2, if_pos hb] at hid ⊢
          exact hagree r' (List.mem_cons_of_mem _ hr') j hj hid
        · rw [if_pos hj2, if_neg hb] at hid ⊢
          exact hagree r' (List.mem_cons_of_mem _ hr') j hj hid
      · rw [if_neg hj2] at hid ⊢
        exact hagree r' (List.mem_cons_of_mem _ hr') j hj hid

theorem AttemptsInv_log_event {s : Store} (h : AttemptsInv s) (now : ℚ) (i : Option String)
    (k m : String) : AttemptsInv (log_event s now i k m) := h

theorem AttemptsInv_condUpdate {s : Store} (h : AttemptsInv s) (x : String)
    (cond : Job → Bool) (f : Job → Job) (hfid : ∀ j, (f j).id = j.id)
    (hf : ∀ j ∈ s.jobs, cond j = true → AttemptsOK j → AttemptsOK (f j)) :
    AttemptsInv (condUpdate s x cond f).1 :=
  ⟨NodupIds_condUpdate x cond f hfid h.1, JobsProp_condUpdate x cond f h.2 hf⟩

theorem AttemptsInv_requeue_stale {s : Store} (h : AttemptsInv s) (now : ℚ) :
    AttemptsInv (requeue_stale s now) := by
  obtain ⟨hn, hok⟩ := h
  refine ⟨NodupIds_requeue_stale hn now, ?_⟩
  unfold requeue_stale
  refine requeue_fold_attemptsOK now _ s hok ?_
  intro r hr j hj hid
  have hrmem : r ∈ s.jobs := (List.mem_filter.mp hr).1
  have hjr : j = r := List.inj_on_of_nodup_map hn hj hrmem hid
  rw [hjr]
  exact ⟨rfl, rfl⟩

theorem AttemptsInv_claimStep {acc : Store × List Job} (h : AttemptsInv acc.1)
    (artifacts : Option (List String)) (holder : String) (lease_until now : ℚ) (row : Job) :
    AttemptsInv (claimStep artifacts holder lease_until now acc row).1 := by
  unfold claimStep
  split
  · refine AttemptsInv_log_event (AttemptsInv_condUpdate h _ _ _ ?_ ?_) _ _ _ _
    · intro j
      rfl
    · intro j _ hc hA
      obtain ⟨h1, h2, h3⟩ := hA
      exact ⟨h1, h2, fun hq => Status.noConfusion hq⟩
  · dsimp only
    split
    · refine AttemptsInv_log_event (AttemptsInv_condUpdate h _ _ _ ?_ ?_) _ _ _ _
      · intro j
        rfl
      · intro j _ hc hA
        obtain ⟨h1, h2, h3⟩ := hA
        have hq := h3 (of_decide_eq_true hc)
        exact ⟨h1, hq, fun hq' => Status.noConfusion hq'⟩
    · refine AttemptsInv_condUpdate h _ _ _ ?_ ?_
      · intro j
        rfl
      · intro j _ hc hA
        obtain ⟨h1, h2, h3⟩ := hA
        have hq := h3 (of_decide_eq_true hc)
        exact ⟨h1, hq, fun hq' => Status.noConfusion hq'⟩

theorem AttemptsInv_claim_ready {s : Store} (h : AttemptsInv s)
    (artifacts : Option (List String)) (holder : String) (lane : Option Int) (batch : Nat)
    (lease_ms now : ℚ) :
    AttemptsInv (claim_ready s artifacts holder lane batch lease_ms now).1 := by
  unfold claim_ready
  refine foldl_pres_pair AttemptsInv _ ?_ _ _ (AttemptsInv_requeue_stale h now)
  intro a r h'
  exact AttemptsInv_claimStep h' artifacts holder _ now r

theorem AttemptsInv_heartbeat {s : Store} (h : AttemptsInv s) (job_id holder : String)
    (lease_ms now : ℚ) : AttemptsInv (heartbeat s job_id holder lease_ms now).1 := by
  unfold heartbeat
  refine AttemptsInv_condUpdate h _ _ _ ?_ ?_
  · intro j
    rfl
  · intro j _ hc hA
    obtain ⟨h1, h2, h3⟩ := hA
    have hrun : j.status = Status.running :=
      of_decide_eq_true ((Bool.and_eq_true _ _).mp hc).1
    exact ⟨h1, h2, fun hq => Status.noConfusion (hq ▸ hrun)⟩

theorem AttemptsInv_mark_done {s : Store} (h : AttemptsInv s) (now : ℚ) (job_id : String)
    (holder : Option String) : AttemptsInv (mark_done s now job_id holder) := by
  unfold mark_done
  dsimp only
  split
  · refine AttemptsInv_log_event (AttemptsInv_condUpdate h _ _ _ ?_ ?_) _ _ _ _
    · intro j
      rfl
    · intro j _ _ hA
      obtain ⟨h1, h2, _⟩ := hA
      exact ⟨h1, h2, fun hq => Status.noConfusion hq⟩
  · refine AttemptsInv_log_event (AttemptsInv_condUpdate h _ _ _ ?_ ?_) _ _ _ _
    · intro j
      rfl
    · intro j _ _ hA
      obtain ⟨h1, h2, _⟩ := hA
      exact ⟨h1, h2, fun hq => Status.noConfusion hq⟩

theorem AttemptsInv_mark_failed {s : Store} (h : AttemptsInv s) (now : ℚ)
    (job_id err : String) (holder : Option String) :
    AttemptsInv (mark_failed s now job_id err holder) := by
  unfold mark_failed
  dsimp only
  split
  · refine AttemptsInv_log_event (AttemptsInv_condUpdate h _ _ _ ?_ ?_) _ _ _ _
    · intro j
      rfl
    · intro j _ _ hA
      obtain ⟨h1, h2, _⟩ := hA
      exact ⟨h1, h2, fun hq => Status.noConfusion hq⟩
  · refine AttemptsInv_log_event (AttemptsInv_condUpdate h _ _ _ ?_ ?_) _ _ _ _
    · intro j
      rfl
    · intro j _ _ hA
      obtain ⟨h1, h2, _⟩ := hA
      exact ⟨h1, h2, fun hq => Status.noConfusion hq⟩

theorem AttemptsInv_enqueue {s s' : Store} (h : AttemptsInv s) {now : ℚ} {job_id : String}
    {lane : Int} {payload : String} {dk : Option String} {ma : Nat} (hma : 1 ≤ ma)
    (hok : enqueue_job s now job_id lane payload dk ma = Except.ok s') : AttemptsInv s' :=
  ⟨NodupIds_enqueue h.1 hok, JobsProp_enqueue h.2 hok ⟨hma, Nat.zero_le _, fun _ => hma⟩⟩

/-- C5 (amended): provided every job is enqueued with `max_attempts ≥ 1` (as
all in-repo callers do — the plan compiler always uses the default 3),
`attempts ≤ max_attempts` holds for every job and is preserved by every
operation; and the stale sweep requeues a below-cap job to `queued` with
`holder`/`lease_until` cleared and `attempts` unchanged, while an at-cap job
transitions to `failed` with error `max attempts exceeded`.  Without the
`max_attempts ≥ 1` proviso the cap can be exceeded (see the counterexample,
reachable through the HTTP `/enqueue` body). -/
theorem C5_attempts_cap (s : Store) (h : AttemptsInv s) :
    (∀ j ∈ s.jobs, j.attempts ≤ j.max_attempts) ∧
    (∀ (now : ℚ) (job_id : String) (lane : Int) (payload : String) (dk : Option String)
        (ma : Nat) (s' : Store), 1 ≤ ma →
      enqueue_job s now job_id lane payload dk ma = Except.ok s' → AttemptsInv s') ∧
    (∀ (artifacts : Option (List String)) (holder : String) (lane : Option Int)
        (batch : Nat) (lease_ms now : ℚ),
      AttemptsInv (claim_ready s artifacts holder lane batch lease_ms now).1) ∧
    (∀ (job_id holder : String) (lease_ms now : ℚ),
      AttemptsInv (heartbeat s job_id holder lease_ms now).1) ∧
    (∀ (now : ℚ) (job_id : String) (holder : Option String),
      AttemptsInv (mark_done s now job_id holder)) ∧
    (∀ (now : ℚ) (job_id err : String) (holder : Option String),
      AttemptsInv (mark_failed s now job_id err holder)) ∧
    (∀ now : ℚ, AttemptsInv (requeue_stale s now)) ∧
    (∀ (now : ℚ), ∀ j ∈ s.jobs, j.status = Status.running →
      leaseExpired now j.lease_until = true →
      (j.attempts < j.max_attempts →
        getJob (requeue_stale s now) j.id =
          some { j with status := Status.queued, holder := none, lease_until := none,
                        updated_at := now }) ∧
      (j.max_attempts ≤ j.attempts →
        getJob (requeue_stale s now) j.id =
          some { j with status := Status.failed, error := some "max attempts exceeded",
                        updated_at := now })) := by
  refine ⟨fun j hj => (h.2 j hj).2.1, ?_, ?_, ?_, ?_, ?_, ?_, ?_⟩
  · intro now job_id lane payload dk ma s' hma hok
    exact AttemptsInv_enqueue h hma hok
  · intro artifacts holder lane batch lease_ms now
    exact AttemptsInv_claim_ready h artifacts holder lane batch lease_ms now
  · intro job_id holder lease_ms now
    exact AttemptsInv_heartbeat h job_id holder lease_ms now
  · intro now job_id holder
    exact AttemptsInv_mark_done h now job_id holder
  · intro now job_id err holder
    exact AttemptsInv_mark_failed h now job_id err holder
  · intro now
    exact AttemptsInv_requeue_stale h now
  · intro now j hj hrun hlease
    have hstale : (decide (j.status = Status.running) && leaseExpired now j.lease_until)
        = true := by
      rw [hlease]
      simp [hrun]
    have hget := requeue_stale_getJob s now h.1 hj hstale
    constructor
    · intro hb
      rw [hget]
      unfold requeueTarget
      rw [if_pos hb]
    · intro hb
      rw [hget]
      unfold requeueTarget
      rw [if_neg (Nat.not_lt.mpr hb)]

/-- C5 counterexample: a job enqueued with `max_attempts = 0` (possible via
the HTTP `/enqueue` body) is claimed without any guard on `attempts`, ending
with `attempts = 1 > 0 = max_attempts`.  The invariant as stated over all
reachable states is false. -/
theorem C5_counterexample :
    ∃ j ∈ c5Store.jobs, j.max_attempts < j.attempts := by
  decide

theorem C5_attempts_cap_witness :
    AttemptsInv c5WStore ∧ (∀ j ∈ c5WStore.jobs, j.attempts ≤ j.max_attempts) :=
  have h : AttemptsInv c5WStore := by decide
  ⟨h, (C5_attempts_cap c5WStore h).1⟩

/-! ### The dedupe short-circuit (claim C6) -/

theorem getJob_claimStep_ne (artifacts : Option (List String)) (holder : String)
    (lease_until now : ℚ) (acc : Store × List Job) (row : Job) {x : String}
    (hx : x ≠ row.id) :
    getJob (claimStep artifacts holder lease_until now acc row).1 x = getJob acc.1 x := by
  unfold claimStep
  split
  · dsimp only
    rw [getJob_log_event]
    exact getJob_condUpdate_ne acc.1 hx _ _ (fun _ => rfl)
  · dsimp only
    split
    · dsimp only
      rw [getJob_log_event]
      exact getJob_condUpdate_ne acc.1 hx _ _ (fun _ => rfl)
    · exact getJob_condUpdate_ne acc.1 hx _ _ (fun _ => rfl)

theorem claimStep_dedupe_spec (artifacts : Option (List String)) (holder : String)
    (lease_until now : ℚ) (acc : Store × List Job) (row j : Job)
    (hd : check_dedupe artifacts row.dedupe_key = true)
    (hget : getJob acc.1 row.id = some j) (hq : j.status = Status.queued) :
    getJob (claimStep artifacts holder lease_until now acc row).1 row.id =
      some { j with status := Status.done, holder := some holder, updated_at := now } ∧
    (claimStep artifacts holder lease_until now acc row).2 = acc.2 ∧
    (⟨now, some row.id, "dedupe_skip",
      strTake ("artifact exists for " ++ row.dedupe_key.getD "None") 500⟩ : Event) ∈
      (claimStep artifacts holder lease_until now acc row).1.events := by
  unfold claimStep
  rw [if_pos hd]
  dsimp only
  refine ⟨?_, rfl, ?_⟩
  · rw [getJob_log_event]
    have hgc := getJob_condUpdate acc.1 row.id (fun k => decide (k.status = Status.queued))
      (fun k => { k with status := Status.done, holder := some holder, updated_at := now })
      (fun _ => rfl)
    rw [hgc, hget]
    exact congrArg some (if_pos (decide_eq_true hq))
  · exact self_mem_events_log_event _ _ _ _ _

theorem claimStep_events_mono (artifacts : Option (List String)) (holder : String)
    (lease_until now : ℚ) (acc : Store × List Job) (row : Job) {e : Event}
    (he : e ∈ acc.1.events) :
    e ∈ (claimStep artifacts holder lease_until now acc row).1.events := by
  unfold claimStep
  split
  · dsimp only
    exact mem_events_log_event he _ _ _ _
  · dsimp only
    split
    · dsimp only
      exact mem_events_log_event he _ _ _ _
    · exact he

theorem claimStep_snd_sub (artifacts : Option (List String)) (holder : String)
    (lease_until now : ℚ) (acc : Store × List Job) (row : Job) :
    (claimStep artifacts holder lease_until now acc row).2 = acc.2 ∨
    (claimStep artifacts holder lease_until now acc row).2 = acc.2 ++ [row] := by
  unfold claimStep
  split
  · exact Or.inl rfl
  · dsimp only
    split
    · exact Or.inr rfl
    · exact Or.inl rfl

theorem getJob_claim_fold_ne (artifacts : Option (List String)) (holder : String)
    (lease_until now : ℚ) (x : String) (rows : List Job) :
    ∀ acc : Store × List Job, (∀ r ∈ rows, r.id ≠ x) →
      getJob ((rows.foldl (claimStep artifacts holder lease_until now) acc)).1 x =
        getJob acc.1 x := by
  induction rows with
  | nil => intro acc _; rfl
  | cons r rest ih =>
    intro acc h
    rw [List.foldl_cons, ih _ (fun r' hr' => h r' (List.mem_cons_of_mem _ hr'))]
    exact getJob_claimStep_ne artifacts holder lease_until now acc r
      (Ne.symm (h r (List.mem_cons_self r rest)))

theorem claim_fold_snd_not_mem (artifacts : Option (List String)) (holder : String)
    (lease_until now : ℚ) (x : String) (rows : List Job) :
    ∀ acc : Store × List Job, (∀ r ∈ rows, r.id ≠ x) →
      x ∉ acc.2.map (fun k => k.id) →
      x ∉ ((rows.foldl (claimStep artifacts holder lease_until now) acc)).2.map
        (fun k => k.id) := by
  induction rows with
  | nil => intro acc _ h; exact h
  | cons r rest ih =>
    intro acc h hx
    rw [List.foldl_cons]
    refine ih _ (fun r' hr' => h r' (List.mem_cons_of_mem _ hr')) ?_
    rcases claimStep_snd_sub artifacts holder lease_until now acc r with hs | hs
    · rw [hs]
      exact hx
    · rw [hs, List.map_append]
      intro hmem
      rcases List.mem_append.mp hmem with hm | hm
      · exact hx hm
      · simp only [List.map_cons, List.map_nil, List.mem_singleton] at hm
        exact h r (List.mem_cons_self r rest) (hm ▸ rfl)

theorem claim_fold_events_mono (artifacts : Option (List String)) (holder : String)
    (lease_until now : ℚ) (rows : List Job) :
    ∀ (acc : Store × List Job) {e : Event}, e ∈ acc.1.events →
      e ∈ ((rows.foldl (claimStep artifacts holder lease_until now) acc)).1.events := by
  induction rows with
  | nil => intro acc e he; exact he
  | cons r rest ih =>
    intro acc e he
    rw [List.foldl_cons]
    exact ih _ (claimStep_events_mono artifacts holder lease_until now acc r he)

theorem claim_fold_dedupe (artifacts : Option (List String)) (holder : String)
    (lease_until now : ℚ) (rows : List Job) :
    ∀ (acc : Store × List Job) (row j : Job),
      (rows.map (fun r => r.id)).Nodup → row ∈ rows →
      check_dedupe artifacts row.dedupe_key = true →
      getJob acc.1 row.id = some j → j.status = Status.queued →
      row.id ∉ acc.2.map (fun k => k.id) →
      getJob ((rows.foldl (claimStep artifacts holder lease_until now) acc)).1 row.id =
        some { j with status := Status.done, holder := some holder, updated_at := now } ∧
      row.id ∉ ((rows.foldl (claimStep artifacts holder lease_until now) acc)).2.map
        (fun k => k.id) ∧
      (⟨now, some row.id, "dedupe_skip",
        strTake ("artifact exists for " ++ row.dedupe_key.getD "None") 500⟩ : Event) ∈
        ((rows.foldl (claimStep artifacts holder lease_until now) acc)).1.events := by
  induction rows with
  | nil => intro acc row j _ hmem; cases hmem
  | cons r rest ih =>
    intro acc row j hn hmem hd hget hq hnotin
    rw [List.map_cons, List.nodup_cons] at hn
    rcases List.mem_cons.mp hmem with rfl | hmem'
    · obtain ⟨hg, hsnd, hev⟩ :=
        claimStep_dedupe_spec artifacts holder lease_until now acc row j hd hget hq
      have hrest : ∀ r' ∈ rest, r'.id ≠ row.id :=
        fun r' hr' hid => hn.1 (hid ▸ List.mem_map_of_mem _ hr')
      rw [List.foldl_cons]
      refine ⟨?_, ?_, ?_⟩
      · rw [getJob_claim_fold_ne artifacts holder lease_until now row.id rest _
          (fun r' hr' => hrest r' hr')]
        exact hg
      · refine claim_fold_snd_not_mem artifacts holder lease_until now row.id rest _
          (fun r' hr' => hrest r' hr') ?_
        rw [hsnd]
        exact hnotin
      · exact claim_fold_events_mono artifacts holder lease_until now rest _ hev
    · have hrne : r.id ≠ row.id := fun h => hn.1 (h ▸ List.mem_map_of_mem _ hmem')
      rw [List.foldl_cons]
      refine ih _ row j hn.2 hmem' hd ?_ hq ?_
      · rw [getJob_claimStep_ne artifacts holder lease_until now acc r (Ne.symm hrne)]
        exact hget
      · rcases claimStep_snd_sub artifacts holder lease_until now acc r with hs | hs
        · rw [hs]
          exact hnotin
        · rw [hs, List.map_append]
          intro hmem2
          rcases List.mem_append.mp hmem2 with hm | hm
          · exact hnotin hm
          · simp only [List.map_cons, List.map_nil, List.mem_singleton] at hm
            exact hrne (hm.symm)

theorem selectReady_nodup_ids {s : Store} (hn : NodupIds s) (lane : Option Int)
    (batch : Nat) : ((selectReady s lane batch).map (fun r => r.id)).Nodup := by
  unfold selectReady
  have h1 : ((s.jobs.filter (readyRow s lane)).map (fun j => j.id)).Nodup :=
    stale_filter_nodup hn _
  have hperm := List.perm_insertionSort createdLE (s.jobs.filter (readyRow s lane))
  have h2 : (((s.jobs.filter (readyRow s lane)).insertionSort createdLE).map
      (fun j => j.id)).Nodup := ((hperm.map _).nodup_iff).mpr h1
  exact List.Nodup.sublist (List.Sublist.map _ (List.take_sublist _ _)) h2

theorem selectReady_facts {s : Store} {lane : Option Int} {batch : Nat} {row : Job}
    (h : row ∈ selectReady s lane batch) :
    row ∈ s.jobs ∧ row.status = Status.queued := by
  unfold selectReady at h
  have h1 := List.mem_of_mem_take h
  rw [List.mem_insertionSort] at h1
  have h2 := List.mem_filter.mp h1
  refine ⟨h2.1, ?_⟩
  have h3 := h2.2
  unfold readyRow at h3
  exact of_decide_eq_true ((Bool.and_eq_true _ _).mp ((Bool.and_eq_true _ _).mp h3).1).1

/-- C6 (amended): during a claim call, every selected ready row whose dedupe
key matches an artifact file stem is transitioned to done with the holder
stamped and `attempts` (and all other fields) unchanged, a `dedupe_skip`
event is logged, and the row is not among the returned claimed jobs; a
missing artifact directory or an unset dedupe key never triggers a dedupe
skip.  (`attempts` is merely unchanged — it need not be 0; see the
counterexample.) -/
theorem C6_dedupe_skip (s : Store) (hn : NodupIds s) (artifacts : Option (List String))
    (holder : String) (lane : Option Int) (batch : Nat) (lease_ms now : ℚ) :
    (∀ row ∈ selectReady (requeue_stale s now) lane batch,
      check_dedupe artifacts row.dedupe_key = true →
      getJob (claim_ready s artifacts holder lane batch lease_ms now).1 row.id =
        some { row with status := Status.done, holder := some holder,
                        updated_at := now } ∧
      row.id ∉ (claim_ready s artifacts holder lane batch lease_ms now).2.map
        (fun k => k.id) ∧
      (⟨now, some row.id, "dedupe_skip",
        strTake ("artifact exists for " ++ row.dedupe_key.getD "None") 500⟩ : Event) ∈
        (claim_ready s artifacts holder lane batch lease_ms now).1.events) ∧
    (∀ dk : Option String, check_dedupe none dk = false) ∧
    (∀ art : Option (List String), check_dedupe art none = false) := by
  refine ⟨?_, ?_, ?_⟩
  · intro row hrow hd
    have hs₁n : NodupIds (requeue_stale s now) := NodupIds_requeue_stale hn now
    obtain ⟨hmem, hq⟩ := selectReady_facts hrow
    have hget : getJob (requeue_stale s now) row.id = some row :=
      getJob_of_mem_nodup hs₁n hmem
    have hrnodup := selectReady_nodup_ids hs₁n lane batch
    unfold claim_ready
    exact claim_fold_dedupe artifacts holder _ now _ _ row row hrnodup hrow hd hget hq
      (by simp)
  · intro dk
    cases dk with
    | none => rfl
    | some d =>
      by_cases hd : d = ""
      · simp [check_dedupe, hd]
      · simp [check_dedupe, hd]
  · intro art
    rfl

/-- C6 counterexample: a job claimed once (attempts = 1) whose lease expired
is requeued and then dedupe-skipped on the next claim; it ends done via a
`dedupe_skip` event with `attempts = 1`, not 0. -/
theorem C6_counterexample :
    (∃ j ∈ c6Store.jobs, j.id = "j" ∧ j.status = Status.done ∧ j.attempts = 1) ∧
    (∃ e ∈ c6Store.events, e.kind = "dedupe_skip") := by
  decide

theorem C6_dedupe_skip_witness :
    (NodupIds c6WStore ∧
      c6WJob ∈ selectReady (requeue_stale c6WStore 5) none 1 ∧
      check_dedupe (some ["k.txt"]) c6WJob.dedupe_key = true) ∧
    (getJob (claim_ready c6WStore (some ["k.txt"]) "w" none 1 30000 5).1 c6WJob.id =
      some { c6WJob with status := Status.done, holder := some "w", updated_at := 5 } ∧
      c6WJob.id ∉ (claim_ready c6WStore (some ["k.txt"]) "w" none 1 30000 5).2.map
        (fun k => k.id)) :=
  have hn : NodupIds c6WStore := by decide
  have hmem : c6WJob ∈ selectReady (requeue_stale c6WStore 5) none 1 := by decide
  have hd : check_dedupe (some ["k.txt"]) c6WJob.dedupe_key = true := by decide
  have hmain := (C6_dedupe_skip c6WStore hn (some ["k.txt"]) "w" none 1 30000 5).1
    c6WJob hmem hd
  ⟨⟨hn, hmem, hd⟩, hmain.1, hmain.2.1⟩

end Sched
